import Mathlib

/-!
Verification of the Habit Tracking & Streak Engine
(backend/src/models/Habit.js, backend/src/models/HabitCompletion.js,
backend/src/routes/auth.js habit routes, frontend/src/lib/api/habits.ts,
User model gamification methods).

Modelling conventions:
* Calendar days (the `YYYY-MM-DD` completionDate strings) are embedded as
  `Int` values counting days since the Unix epoch; walking back one calendar
  day (`checkDate.setDate(checkDate.getDate() - 1)`) is subtraction by 1.
* `Date.prototype.getDay` for a UTC-midnight date is `(epochDay + 4) mod 7`
  with 0 = Sunday (1970-01-01 was a Thursday).
* Mongoose documents become structures; `undefined` optional fields become
  `Option`; JavaScript truthiness of `x || y` is modelled per type
  (`undefined`, `''` and `0` are falsy).
* Write timestamps (`completedAt`, `createdAt`, `updatedAt`) are metadata that
  no claim depends on and are not modelled.
* `while` loops that walk a date backward are embedded as structural recursion
  on an explicit iteration bound (`fuel`) chosen at the call site to be at
  least the number of iterations the source loop performs; the bound and its
  justification are given at each definition.
-/

namespace TikTik

/-- The weekday-name enumeration used by `customFrequency.days`. -/
inductive Weekday
  | sunday | monday | tuesday | wednesday | thursday | friday | saturday
deriving DecidableEq, Repr

/-- The value of `dayNames[date.getDay()]` for a UTC-midnight date given as days since the
epoch: 1970-01-01 (epoch day 0) was a Thursday, and `getDay` numbers Sunday
as 0. -/
def dayOfWeek (n : Int) : Weekday :=
  match (n + 4).emod 7 with
  | 0 => .sunday
  | 1 => .monday
  | 2 => .tuesday
  | 3 => .wednesday
  | 4 => .thursday
  | 5 => .friday
  | _ => .saturday

/-- The mood enumeration (`['happy', 'neutral', 'sad', 'anxious']`). -/
inductive Mood
  | happy | neutral | sad | anxious
deriving DecidableEq, Repr

/-- The `frequency` enum of the habit schema: `['daily', 'weekly', 'custom']`. -/
inductive Frequency
  | daily | weekly | custom
deriving DecidableEq, Repr

/-- One reminder subdocument of the habit schema. -/
structure Reminder where
  time : String
  enabled : Bool
  message : String
deriving DecidableEq, Repr

/-- The `Habit` mongoose document (the fields the engine reads or writes). -/
structure Habit where
  title : String
  description : Option String
  category : String
  icon : String
  color : String
  frequency : Frequency
  customDays : List Weekday      -- customFrequency.days
  timesPerWeek : Option Nat      -- customFrequency.timesPerWeek
  targetCount : Nat              -- schema min 1
  unit : String
  currentStreak : Nat
  longestStreak : Nat
  totalCompletions : Nat
  reminders : List Reminder
  moodBooster : Bool
  recommendedMoods : List Mood
  isActive : Bool
  isArchived : Bool
deriving DecidableEq, Repr

/-- The method `habitSchema.methods.isDueToday` (Habit.js 187-204): inactive habits are
never due; `daily` and `weekly` habits are always due; a `custom` habit is due
iff the weekday name of the date is in `customFrequency.days`. -/
def isDueToday (h : Habit) (date : Int) : Bool :=
  if !h.isActive then false
  else
    match h.frequency with
    | .daily => true
    | .weekly => true
    | .custom => h.customDays.contains (dayOfWeek date)

/-- The frontend utility `isHabitDueToday` (habits.ts 155-172); same logic as the backend
method, with `habit.customFrequency?.days.includes(todayName) || false` for
the custom case. -/
def isHabitDueToday (h : Habit) (date : Int) : Bool :=
  if !h.isActive then false
  else
    match h.frequency with
    | .daily => true
    | .weekly => true
    | .custom => h.customDays.contains (dayOfWeek date)

/-- The `while (completionIndex < completions.length)` loop of
`calculateStreak` (Habit.js 244-259), with the completion list represented by
its suffix from `completionIndex` on (dates only, sorted descending):
* if the pending completion falls on `checkDate`, consume it and increment the
  streak when the day is due;
* otherwise, if the day is due, it was due but not completed: break;
* otherwise move to the previous day.
The loop is entered with `checkDate` equal to the most recent completion date,
so every pending completion date is at most `checkDate` and each iteration
either consumes a completion or moves `checkDate` one day closer to the oldest
pending one; the fuel passed by `calculateStreak` below therefore never runs
out. The guard `c < checkDate` on the final recursive call is redundant in
that setting (a pending completion can never be later than the walk day). -/
def streakLoop (h : Habit) : Nat → List Int → Int → Nat → Nat
  | 0, _, _, streak => streak
  | _ + 1, [], _, streak => streak
  | fuel + 1, c :: rest, checkDate, streak =>
    if c = checkDate then
      streakLoop h fuel rest (checkDate - 1)
        (if isDueToday h checkDate then streak + 1 else streak)
    else if isDueToday h checkDate then
      streak
    else if c < checkDate then
      streakLoop h fuel (c :: rest) (checkDate - 1) streak
    else
      streak

/-- The method `habitSchema.methods.calculateStreak` (Habit.js 207-267) and the identical
`calculateHabitStreak` (HabitCompletion.js 193-245), as the streak value they
return. The argument `completions` is the habit's completion-date history
sorted descending (`.sort({ completionDate: -1 })`); `today` is the current
calendar day. The loop starts at the most recent completion date and ends at
the latest one day past the oldest completion date, so
`(startDate - oldest) + 1` iterations always suffice. -/
def calculateStreak (h : Habit) (completions : List Int) (today : Int) : Nat :=
  match completions with
  | [] => 0
  | first :: _ =>
    let fuel := fun startDate : Int =>
      (startDate - completions.getLastD 0).toNat + 1
    if first = today then
      streakLoop h (fuel today) completions today 0
    else if first = today - 1 then
      streakLoop h (fuel (today - 1)) completions (today - 1) 0
    else
      0

/-- The in-place field updates performed by `habit.calculateStreak()`:
`this.currentStreak = streak`, and `this.longestStreak` raised when exceeded.
(The early-return branches set `currentStreak = 0` and leave `longestStreak`
alone, which coincides with the guarded raise since `0 > longestStreak` is
never true.) -/
def applyCalculateStreak (h : Habit) (completions : List Int) (today : Int) :
    Habit :=
  let streak := calculateStreak h completions today
  { h with
    currentStreak := streak
    longestStreak :=
      if streak > h.longestStreak then streak else h.longestStreak }

/-- One stored `HabitCompletion` row (the fields the engine reads or writes;
document ids and write timestamps omitted). -/
structure CompletionRow where
  completionDate : Int
  count : Nat
  targetCount : Nat
  notes : Option String
  effortLevel : Option Nat
  satisfactionLevel : Option Nat
  moodAtTime : Option Mood
  streakAtCompletion : Nat
deriving DecidableEq, Repr

/-- The expression `newVal || oldVal` for an optional string field (`undefined` and `''` are
falsy in JavaScript). -/
def orFalsyStr (newVal oldVal : Option String) : Option String :=
  match newVal with
  | some s => if s = "" then oldVal else some s
  | none => oldVal

/-- The expression `newVal || oldVal` for an optional numeric field (`undefined` and `0` are
falsy). -/
def orFalsyNum (newVal oldVal : Option Nat) : Option Nat :=
  match newVal with
  | some n => if n = 0 then oldVal else some n
  | none => oldVal

/-- The expression `newVal || oldVal` for an optional mood field (the mood enum strings are
all non-empty, hence truthy). -/
def orFalsyMood (newVal oldVal : Option Mood) : Option Mood :=
  match newVal with
  | some m => some m
  | none => oldVal

/-- A gamification badge (`user.gamification.badges` entries). -/
structure Badge where
  name : String
  description : String
  icon : String
deriving DecidableEq, Repr

/-- The user's gamification state, the only part of the user record the
engine mutates. -/
structure GamificationState where
  points : Nat
  level : Nat
  badges : List Badge
deriving DecidableEq, Repr

/-- The method `userSchema.methods.addPoints` (User model): add the points, recompute
`level = floor(points / 100) + 1`, and report a level-up when the new level
exceeds the stored one. -/
def addPoints (g : GamificationState) (p : Nat) : GamificationState × Bool :=
  let pts := g.points + p
  let newLevel := pts / 100 + 1
  if newLevel > g.level then
    ({ g with points := pts, level := newLevel }, true)
  else
    ({ g with points := pts }, false)

/-- The method `userSchema.methods.addBadge` (User model): push the badge only when no
badge with the same name already exists. -/
def addBadge (g : GamificationState) (b : Badge) : GamificationState :=
  if g.badges.any (fun x => x.name = b.name) then g
  else { g with badges := g.badges ++ [b] }

/-- The method `habitCompletionSchema.methods.awardPoints` (HabitCompletion.js 248-285).
A comparison such as `this.effortLevel >= 4` is false when the field is
`undefined`, which `Option.getD 0` reproduces. Returns the user state after
the awards together with the points figure and the levelUp flag. -/
def awardPoints (c : CompletionRow) (g : GamificationState) :
    GamificationState × Nat × Bool :=
  let points := 10
  let points := if 4 ≤ c.effortLevel.getD 0 then points + 5 else points
  let points := if 4 ≤ c.satisfactionLevel.getD 0 then points + 5 else points
  let points := if 7 ≤ c.streakAtCompletion then points + 10 else points
  let points := if 30 ≤ c.streakAtCompletion then points + 25 else points
  let r := addPoints g points
  let g2 :=
    if c.streakAtCompletion = 7 then
      addBadge r.1
        ⟨"7-Day Streak", "Completed a habit for 7 consecutive days", "🔥"⟩
    else if c.streakAtCompletion = 30 then
      addBadge r.1
        ⟨"30-Day Streak", "Completed a habit for 30 consecutive days", "💎"⟩
    else r.1
  (g2, points, r.2)

/-- The server-side state one habit's completion endpoints operate on: the
habit document, its completion ledger, and the owner's gamification state. -/
structure EngineState where
  habit : Habit
  ledger : List CompletionRow
  user : GamificationState
deriving DecidableEq, Repr

/-- Insert a date into a descending-sorted list (used to model
`.sort({ completionDate: -1 })` on the ledger query). -/
def insertDesc (d : Int) : List Int → List Int
  | [] => [d]
  | x :: xs => if d ≥ x then d :: x :: xs else x :: insertDesc d xs

/-- The dates of a habit's completion rows sorted descending, as the ledger
queries of `calculateStreak` return them. -/
def sortedDatesDesc (ledger : List CompletionRow) : List Int :=
  (ledger.map (·.completionDate)).foldr insertDesc []

/-- The request body of POST /api/habits/:id/complete:
`const { count = 1, notes, effortLevel, satisfactionLevel, moodAtTime } =
req.body`. -/
structure CompleteParams where
  count : Option Nat
  notes : Option String
  effortLevel : Option Nat
  satisfactionLevel : Option Nat
  moodAtTime : Option Mood
deriving DecidableEq, Repr

/-- Persisting the mutated document returned by `findOne`: the first row for
that completion date is replaced. -/
def replaceRow (r : CompletionRow) : List CompletionRow → List CompletionRow
  | [] => []
  | x :: xs =>
    if x.completionDate = r.completionDate then r :: xs
    else x :: replaceRow r xs

/-- The field assignments the update branch of POST /api/habits/:id/complete
(auth.js 723-731) performs on the existing row: count is overwritten with
`Math.min(count, habit.targetCount)` (`count` defaulting to 1) and each
context field with `supplied || existing`. -/
def updateRowFields (p : CompleteParams) (targetCount : Nat)
    (existing : CompletionRow) : CompletionRow :=
  { existing with
    count := min (p.count.getD 1) targetCount
    notes := orFalsyStr p.notes existing.notes
    effortLevel := orFalsyNum p.effortLevel existing.effortLevel
    satisfactionLevel :=
      orFalsyNum p.satisfactionLevel existing.satisfactionLevel
    moodAtTime := orFalsyMood p.moodAtTime existing.moodAtTime }

/-- The habit-document mutation performed by the create branch of POST
/api/habits/:id/complete (auth.js 744-767): `habit.calculateStreak()` runs
first (mutating the streak fields in place), then `totalCompletions += 1`,
`currentStreak = currentStreak + 1` and the guarded raise of
`longestStreak`. -/
def recordHabitUpdate (h : Habit) (completions : List Int) (today : Int) :
    Habit :=
  let currentStreak := calculateStreak h completions today
  let habit1 := applyCalculateStreak h completions today
  { habit1 with
    totalCompletions := habit1.totalCompletions + 1
    currentStreak := currentStreak + 1
    longestStreak :=
      if currentStreak + 1 > habit1.longestStreak then currentStreak + 1
      else habit1.longestStreak }

/-- POST /api/habits/:id/complete (auth.js 710-785), the `recordCompletion`
operation. If a row for (habit, today) exists it is updated in place via
`updateRowFields`; habit and user are untouched. Otherwise the habit's streak
is computed before the write (`habit.calculateStreak()`), a new row is
created with `streakAtCompletion = currentStreak + 1`, the habit's progress
fields are updated per `recordHabitUpdate`, and `completion.awardPoints()`
runs. Returns the new state and the created or updated row. -/
def recordCompletion (s : EngineState) (today : Int) (p : CompleteParams) :
    EngineState × CompletionRow :=
  let count := p.count.getD 1
  match s.ledger.find? (fun c => c.completionDate = today) with
  | some existing =>
    let updated := updateRowFields p s.habit.targetCount existing
    ({ s with ledger := replaceRow updated s.ledger }, updated)
  | none =>
    let currentStreak := calculateStreak s.habit (sortedDatesDesc s.ledger) today
    let completion : CompletionRow :=
      { completionDate := today
        count := min count s.habit.targetCount
        targetCount := s.habit.targetCount
        notes := p.notes
        effortLevel := p.effortLevel
        satisfactionLevel := p.satisfactionLevel
        moodAtTime := p.moodAtTime
        streakAtCompletion := currentStreak + 1 }
    let habit2 := recordHabitUpdate s.habit (sortedDatesDesc s.ledger) today
    let user1 := (awardPoints completion s.user).1
    ({ habit := habit2, ledger := s.ledger ++ [completion], user := user1 },
     completion)

/-- The error value thrown by `new AppError(message, status, code)`. -/
structure AppError where
  message : String
  status : Nat
  code : String
deriving DecidableEq, Repr

/-- The habit-document mutation performed by DELETE /api/habits/:id/complete
(auth.js 804-808): `totalCompletions = Math.max(0, totalCompletions - 1)`
(which Nat subtraction reproduces) followed by `habit.calculateStreak()` on
the post-delete ledger. -/
def undoHabitUpdate (h : Habit) (completions : List Int) (today : Int) :
    Habit :=
  applyCalculateStreak
    { h with totalCompletions := h.totalCompletions - 1 } completions today

/-- DELETE /api/habits/:id/complete (auth.js 790-819), the `undoCompletion`
operation: `findOneAndDelete` for (habit, today), a 404 AppError when no row
exists, otherwise the habit mutation of `undoHabitUpdate` on the post-delete
ledger, and save. -/
def undoCompletion (s : EngineState) (today : Int) :
    Except AppError EngineState :=
  match s.ledger.find? (fun c => c.completionDate = today) with
  | none => .error ⟨"No completion found for today", 404, "AUTHZ_002"⟩
  | some _ =>
    let ledger1 := s.ledger.eraseP (fun c => c.completionDate = today)
    let habit2 := undoHabitUpdate s.habit (sortedDatesDesc ledger1) today
    .ok { s with habit := habit2, ledger := ledger1 }

/-- A PUT /api/habits/:id body: each member of `allowedFields` (auth.js
665-669) optionally present. The progress fields `currentStreak`,
`longestStreak` and `totalCompletions` are not in `allowedFields`, so they
cannot appear in the payload. -/
structure HabitUpdate where
  title : Option String
  description : Option (Option String)
  category : Option String
  icon : Option String
  color : Option String
  frequency : Option Frequency
  customFrequency : Option (List Weekday × Option Nat)
  targetCount : Option Nat
  unit : Option String
  reminders : Option (List Reminder)
  moodBooster : Option Bool
  recommendedMoods : Option (List Mood)
  isActive : Option Bool

/-- PUT /api/habits/:id (auth.js 655-687): assign each allowed field that is
present in the body; everything else, the progress fields included, is left
unchanged. -/
def updateHabit (h : Habit) (u : HabitUpdate) : Habit :=
  { h with
    title := u.title.getD h.title
    description := u.description.getD h.description
    category := u.category.getD h.category
    icon := u.icon.getD h.icon
    color := u.color.getD h.color
    frequency := u.frequency.getD h.frequency
    customDays := (u.customFrequency.map Prod.fst).getD h.customDays
    timesPerWeek := (u.customFrequency.map Prod.snd).getD h.timesPerWeek
    targetCount := u.targetCount.getD h.targetCount
    unit := u.unit.getD h.unit
    reminders := u.reminders.getD h.reminders
    moodBooster := u.moodBooster.getD h.moodBooster
    recommendedMoods := u.recommendedMoods.getD h.recommendedMoods
    isActive := u.isActive.getD h.isActive }

/-- DELETE /api/habits/:id (auth.js 692-705): soft delete, marking the habit
inactive and archived; nothing else is touched. -/
def archiveHabit (h : Habit) : Habit :=
  { h with isActive := false, isArchived := true }

/-- The descriptive part of a POST /api/habits body. -/
structure HabitDraft where
  title : String
  description : Option String
  category : String
  icon : String
  color : String
  frequency : Frequency
  customDays : List Weekday
  timesPerWeek : Option Nat
  targetCount : Nat
  unit : String
  reminders : List Reminder
  moodBooster : Bool
  recommendedMoods : List Mood

/-- POST /api/habits (auth.js 606-650) together with the schema defaults: a
new habit starts with the progress fields zeroed, active and not archived. -/
def createHabit (d : HabitDraft) : Habit :=
  { title := d.title
    description := d.description
    category := d.category
    icon := d.icon
    color := d.color
    frequency := d.frequency
    customDays := d.customDays
    timesPerWeek := d.timesPerWeek
    targetCount := d.targetCount
    unit := d.unit
    currentStreak := 0
    longestStreak := 0
    totalCompletions := 0
    reminders := d.reminders
    moodBooster := d.moodBooster
    recommendedMoods := d.recommendedMoods
    isActive := true
    isArchived := false }

/-- A completion row as the per-user calendar query sees it: which habit it
belongs to and on which day. -/
structure UserCompletion where
  habitId : Nat
  completionDate : Int
deriving DecidableEq, Repr

/-- One value of the `calendarData` map built by GET
/api/habits/calendar/range (the `habits` sub-array is omitted; no claim
reads it). -/
structure CalendarDay where
  totalHabits : Nat
  completedHabits : Nat
  completionRate : Nat
deriving DecidableEq, Repr

/-- The value `Math.round((completed / total) * 100)` for `total > 0`, with the
double-precision arithmetic of the source modelled as exact rational
arithmetic: the nonnegative rational `100·c/t` rounded half-up is
`(200·c + t) / (2·t)` in integer division. -/
def roundRate (completed total : Nat) : Nat :=
  (200 * completed + total) / (2 * total)

/-- The `calendarData[dateStr]` entry GET /api/habits/calendar/range (auth.js
908-972) computes for one day of the range: `totalHabits` counts the user's
active habits due that day (`Habit.find({user, isActive: true })` filtered by
`isDueToday(date)`); `completedHabits` is the length of
`completionsByDate[dateStr]`, the user's completion rows carrying that date —
whatever habit they belong to; the rate divides the two, with `0` when no
habit is due. (The route queries only rows inside the requested range;
grouping by exact date makes rows outside the range irrelevant, so the model
passes the full row list.) -/
def calendarDayData (habits : List (Nat × Habit))
    (completions : List UserCompletion) (date : Int) : CalendarDay :=
  let activeHabits := habits.filter (fun hb => hb.2.isActive)
  let habitsForDate := activeHabits.filter (fun hb => isDueToday hb.2 date)
  let completionsForDate :=
    completions.filter (fun c => c.completionDate = date)
  { totalHabits := habitsForDate.length
    completedHabits := completionsForDate.length
    completionRate :=
      if habitsForDate.length > 0 then
        roundRate completionsForDate.length habitsForDate.length
      else 0 }

/-- The days visited by
`for (let date = start; date <= end; date.setDate(date.getDate() + 1))`. -/
def rangeDays (startDate endDate : Int) : List Int :=
  (List.range (endDate + 1 - startDate).toNat).map
    (fun (i : Nat) => startDate + (i : Int))

/-- GET /api/habits/calendar/range (auth.js 908-972): the `calendarData` map,
as the association list of per-day entries over the inclusive date range. -/
def calendarRange (habits : List (Nat × Habit))
    (completions : List UserCompletion) (startDate endDate : Int) :
    List (Int × CalendarDay) :=
  (rangeDays startDate endDate).map
    (fun d => (d, calendarDayData habits completions d))

/-- One buffered offline completion (`saveCompletionOffline`, habits.ts
248-261): the object key is `habitId_date`, the value holds the payload
fields and a `timestamp` for ordering. -/
structure OfflineEntry where
  habitId : Nat
  date : Int
  params : CompleteParams
  timestamp : Nat
deriving DecidableEq, Repr

/-- The client function `saveCompletionOffline` (habits.ts 248-261): upsert keyed by
`habitId_date`. A JavaScript object keeps an overwritten key at its original
position, so updating an existing key rewrites it in place while a new key is
appended. -/
def saveCompletionOffline (buf : List OfflineEntry) (habitId : Nat)
    (today : Int) (p : CompleteParams) (now : Nat) : List OfflineEntry :=
  if buf.any (fun e => e.habitId = habitId ∧ e.date = today) then
    buf.map (fun e =>
      if e.habitId = habitId ∧ e.date = today then ⟨habitId, today, p, now⟩
      else e)
  else
    buf ++ [⟨habitId, today, p, now⟩]

/-- The client function `syncOfflineData` (habits.ts 268-289), for a buffer whose entries all
target the one modelled habit: each buffered entry, in object-key
(insertion) order, is replayed through POST /api/habits/:id/complete with the
payload `{count, notes, effortLevel, satisfactionLevel, moodAtTime}` — the
buffered `date` is not part of the request, and the server derives `today`
from its own clock at replay time (auth.js 714) — and is removed from the
buffer when the request succeeds; a failed request leaves the entry buffered.
`ok` is the success oracle for the network call; a failed call is modelled as
not reaching the server. -/
def syncOfflineData (server : EngineState) (replayDay : Int)
    (buf : List OfflineEntry) (ok : OfflineEntry → Bool) :
    EngineState × List OfflineEntry :=
  buf.foldl
    (fun acc e =>
      if ok e then
        ((recordCompletion acc.1 replayDay e.params).1,
         acc.2.filter (fun x => ¬(x.habitId = e.habitId ∧ x.date = e.date)))
      else acc)
    (server, buf)

/-! ### Reference definitions taken from the specification's wording

These are deliberately written from the spec's words, to be compared with the
definitions above that embed the source. -/

/-- Modelled from the spec (§4.3 step 3, claim C1): the reference streak walk.
From `day` the walk moves backward one calendar day at a time: a day that is
not due is skipped and neither breaks nor extends the streak; a due day on
which a completion exists increments the streak; the first due day without a
completion ends the walk; the walk also terminates when the completion list
is exhausted, i.e. once the day has passed `oldest`, the oldest completion
date. The fuel passed by `specStreak` is the number of days from the anchor
down to `oldest` plus one, after which the walk has necessarily ended, so the
fuel-exhaustion branch coincides with the list-exhausted stop. -/
def specWalk (h : Habit) (dates : List Int) (oldest : Int) :
    Nat → Int → Nat → Nat
  | 0, _, streak => streak
  | fuel + 1, day, streak =>
    if day < oldest then streak
    else if isDueToday h day then
      if dates.contains day then
        specWalk h dates oldest fuel (day - 1) (streak + 1)
      else streak
    else specWalk h dates oldest fuel (day - 1) streak

/-- Modelled from the spec (§4.3, claim C1): the reference streak value for a
completion history sorted descending (its head is the most recent
completion). If there are no completions the streak is 0; if the most recent
completion is neither today nor yesterday the streak is 0; otherwise the walk
of `specWalk` runs from that anchor. -/
def specStreak (h : Habit) (dates : List Int) (today : Int) : Nat :=
  match dates with
  | [] => 0
  | mostRecent :: _ =>
    if mostRecent = today ∨ mostRecent = today - 1 then
      specWalk h dates (dates.getLastD 0)
        ((mostRecent - dates.getLastD 0).toNat + 1) mostRecent 0
    else 0

/-- Modelled from the spec (§4.4, claim C6): `completed` is the number of the
day's due habits that have a completion row on that day. -/
def specCompletedCount (habits : List (Nat × Habit))
    (completions : List UserCompletion) (date : Int) : Nat :=
  (habits.filter (fun hb => hb.2.isActive && isDueToday hb.2 date)).countP
    (fun hb => completions.any
      (fun c => c.habitId = hb.1 ∧ c.completionDate = date))

/-- Modelled from the spec (§4.4, claim C6): completionRate =
round(completed / total × 100) with `completed` counting due habits that have
a completion row that day, and 0 when no habit is due. -/
def specCompletionRate (habits : List (Nat × Habit))
    (completions : List UserCompletion) (date : Int) : Nat :=
  let total :=
    (habits.filter (fun hb => hb.2.isActive && isDueToday hb.2 date)).length
  if total > 0 then roundRate (specCompletedCount habits completions date) total
  else 0

/-! ### Concrete fixtures for witnesses and counterexamples -/

/-- A daily habit fixture. -/
def exampleDaily : Habit :=
  { title := "Drink water"
    description := none
    category := "health"
    icon := "🎯"
    color := "#48BB78"
    frequency := .daily
    customDays := []
    timesPerWeek := none
    targetCount := 8
    unit := "glasses"
    currentStreak := 0
    longestStreak := 0
    totalCompletions := 0
    reminders := []
    moodBooster := false
    recommendedMoods := []
    isActive := true
    isArchived := false }

/-- A custom habit due only on Thursdays. -/
def exampleThursday : Habit :=
  { exampleDaily with
    frequency := .custom
    customDays := [.thursday]
    timesPerWeek := some 1
    targetCount := 1 }

/-- A custom habit due only on Mondays. -/
def exampleMonday : Habit :=
  { exampleDaily with
    frequency := .custom
    customDays := [.monday]
    timesPerWeek := some 1
    targetCount := 1 }

/-- An inactive daily habit. -/
def exampleInactiveDaily : Habit := { exampleDaily with isActive := false }

/-- An empty gamification state at level 1. -/
def exampleUser : GamificationState := ⟨0, 1, []⟩

/-- A server state for the daily habit holding one completion row for epoch
day 0. -/
def exampleStateOneRow : EngineState :=
  ⟨exampleDaily, [⟨0, 1, 8, none, none, none, none, 1⟩], exampleUser⟩

/-- A completion request body with every optional field absent. -/
def emptyParams : CompleteParams := ⟨none, none, none, none, none⟩

/-- An update payload with every field absent. -/
def emptyUpdate : HabitUpdate :=
  ⟨none, none, none, none, none, none, none, none, none, none, none, none,
    none⟩

/-- A minimal habit draft. -/
def exampleDraft : HabitDraft :=
  ⟨"t", none, "health", "i", "#FFFFFF", .daily, [], none, 1, "times", [],
    false, []⟩

/-- A server state for the daily habit holding one completion row for epoch
day 0 with count 5 out of 8. -/
def exampleStateFullRow : EngineState :=
  ⟨exampleDaily, [⟨0, 5, 8, none, none, none, none, 1⟩], exampleUser⟩

/-! ### Helper lemmas -/

theorem isDueToday_congr {h h' : Habit} (ha : h.isActive = h'.isActive)
    (hf : h.frequency = h'.frequency) (hc : h.customDays = h'.customDays) :
    ∀ d, isDueToday h d = isDueToday h' d := by
  intro d
  simp only [isDueToday, ha, hf, hc]

theorem streakLoop_congr {h h' : Habit} (ha : h.isActive = h'.isActive)
    (hf : h.frequency = h'.frequency) (hc : h.customDays = h'.customDays) :
    ∀ fuel l day s, streakLoop h fuel l day s = streakLoop h' fuel l day s := by
  intro fuel
  induction fuel with
  | zero => intro l day s; rfl
  | succ n ih =>
    intro l day s
    cases l with
    | nil => rfl
    | cons c rest =>
      simp only [streakLoop, isDueToday_congr ha hf hc]
      split
      · rw [ih]
      · split
        · rfl
        · split
          · rw [ih]
          · rfl

theorem calculateStreak_congr {h h' : Habit} (ha : h.isActive = h'.isActive)
    (hf : h.frequency = h'.frequency) (hc : h.customDays = h'.customDays)
    (l : List Int) (today : Int) :
    calculateStreak h l today = calculateStreak h' l today := by
  cases l with
  | nil => rfl
  | cons c rest =>
    simp only [calculateStreak]
    split
    · rw [streakLoop_congr ha hf hc]
    · split
      · rw [streakLoop_congr ha hf hc]
      · rfl

/-- C8 (counterexample): the claim "isDue(habit, date) is true for every habit
whose frequency is daily or weekly" fails on an inactive daily habit: both the
backend `isDueToday` and the frontend `isHabitDueToday` return false for every
date because they check `isActive` first. -/
theorem isDue_daily_inactive_cex :
    exampleInactiveDaily.frequency = Frequency.daily ∧
    isDueToday exampleInactiveDaily 0 = false ∧
    isHabitDueToday exampleInactiveDaily 0 = false := by
  decide

/-- C8 (amended): for every date, an inactive habit is never due; an active
habit with frequency daily or weekly is always due; an active habit with
frequency custom is due iff the weekday name of the date is in its day set.
Both the backend `isDueToday` and the frontend `isHabitDueToday` satisfy
this. -/
theorem isDue_spec (h : Habit) (date : Int) :
    (h.isActive = false →
      isDueToday h date = false ∧ isHabitDueToday h date = false) ∧
    (h.isActive = true →
      ((h.frequency = .daily ∨ h.frequency = .weekly) →
        isDueToday h date = true ∧ isHabitDueToday h date = true) ∧
      (h.frequency = .custom →
        (isDueToday h date = true ↔ dayOfWeek date ∈ h.customDays) ∧
        (isHabitDueToday h date = true ↔ dayOfWeek date ∈ h.customDays))) := by
  constructor
  · intro ha
    simp [isDueToday, isHabitDueToday, ha]
  · intro ha
    constructor
    · rintro (hf | hf) <;> simp [isDueToday, isHabitDueToday, ha, hf]
    · intro hf
      simp [isDueToday, isHabitDueToday, ha, hf, List.elem_iff]

/-- C8 (witness): `isDue_spec` evaluated on the Thursday-only habit at epoch
day 0, a Thursday. -/
theorem isDue_spec_witness :
    exampleThursday.isActive = true ∧
    exampleThursday.frequency = .custom ∧
    (isDueToday exampleThursday 0 = true ↔
      dayOfWeek 0 ∈ exampleThursday.customDays) := by
  refine ⟨by decide, by decide, ?_⟩
  exact (((isDue_spec exampleThursday 0).2 (by decide)).2 (by decide)).1

/-- C9: no engine operation decreases a habit's `longestStreak`: an update
payload cannot carry it (it is not in `allowedFields`), archiving does not
touch it, the streak recomputation and the completion endpoints only ever
raise it, and creation initialises it to 0 on a fresh habit without mutating
any existing one. -/
theorem longestStreak_monotone (h : Habit) (u : HabitUpdate) (l : List Int)
    (today : Int) (s : EngineState) (p : CompleteParams) (d : HabitDraft) :
    (updateHabit h u).longestStreak = h.longestStreak ∧
    (archiveHabit h).longestStreak = h.longestStreak ∧
    h.longestStreak ≤ (applyCalculateStreak h l today).longestStreak ∧
    s.habit.longestStreak ≤
      ((recordCompletion s today p).1).habit.longestStreak ∧
    (∀ s2, undoCompletion s today = .ok s2 →
      s.habit.longestStreak ≤ s2.habit.longestStreak) ∧
    (createHabit d).longestStreak = 0 := by
  refine ⟨rfl, rfl, ?_, ?_, ?_, rfl⟩
  · simp only [applyCalculateStreak]
    split <;> omega
  · rcases hfind : s.ledger.find? (fun c => c.completionDate = today) with _ | r
    · simp only [recordCompletion, hfind, recordHabitUpdate,
        applyCalculateStreak]
      split <;> split <;> omega
    · simp only [recordCompletion, hfind]
      exact le_rfl
  · intro s2 h2
    rcases hfind : s.ledger.find? (fun c => c.completionDate = today) with _ | r
    · simp [undoCompletion, hfind] at h2
    · simp only [undoCompletion, hfind, Except.ok.injEq] at h2
      subst h2
      simp only [undoHabitUpdate, applyCalculateStreak]
      split <;> omega

/-- C9 (witness): `longestStreak_monotone` at a concrete state, discharging
the undo hypothesis at the state holding one completion row for day 0. -/
theorem longestStreak_monotone_witness :
    ∃ s2, undoCompletion exampleStateOneRow 0 = .ok s2 ∧
      exampleStateOneRow.habit.longestStreak ≤ s2.habit.longestStreak := by
  refine ⟨_, rfl, ?_⟩
  exact (longestStreak_monotone exampleDaily emptyUpdate [] 0
    exampleStateOneRow emptyParams exampleDraft).2.2.2.2.1 _ rfl

theorem addBadge_points (g : GamificationState) (b : Badge) :
    (addBadge g b).points = g.points := by
  simp only [addBadge]
  split <;> rfl

theorem addPoints_points (g : GamificationState) (p : Nat) :
    (addPoints g p).1.points = g.points + p := by
  simp only [addPoints]
  split <;> rfl

theorem addPoints_badges (g : GamificationState) (p : Nat) :
    (addPoints g p).1.badges = g.badges := by
  simp only [addPoints]
  split <;> rfl

theorem addBadge_name_mem (g : GamificationState) (b : Badge) (n : String) :
    n ∈ (addBadge g b).badges.map Badge.name ↔
      n ∈ g.badges.map Badge.name ∨ n = b.name := by
  simp only [addBadge]
  split_ifs with hmem
  · simp only [List.any_eq_true, decide_eq_true_eq] at hmem
    obtain ⟨x, hx, hxn⟩ := hmem
    constructor
    · exact Or.inl
    · rintro (hn | rfl)
      · exact hn
      · rw [← hxn]
        exact List.mem_map_of_mem Badge.name hx
  · simp

theorem addBadge_nodup (g : GamificationState) (b : Badge)
    (hg : (g.badges.map Badge.name).Nodup) :
    ((addBadge g b).badges.map Badge.name).Nodup := by
  simp only [addBadge]
  split_ifs with hmem
  · exact hg
  · simp only [List.any_eq_true, decide_eq_true_eq] at hmem
    push_neg at hmem
    simp only [List.map_append, List.map_cons, List.map_nil]
    rw [List.nodup_append]
    refine ⟨hg, List.nodup_singleton _, ?_⟩
    intro a ha hb
    simp only [List.mem_singleton] at hb
    subst hb
    obtain ⟨x, hx, hxn⟩ := List.mem_map.mp ha
    exact hmem x hx hxn

theorem addBadge_idem (g : GamificationState) (b : Badge) :
    addBadge (addBadge g b) b = addBadge g b := by
  by_cases hmem : g.badges.any (fun x => x.name = b.name)
  · simp only [addBadge, if_pos hmem]
  · simp only [addBadge, if_neg hmem]
    rw [if_pos]
    simp

/-- C5: a new first-of-the-day completion awards exactly
10 + (5 if effortLevel ≥ 4) + (5 if satisfactionLevel ≥ 4)
+ (10 if streakAtCompletion ≥ 7) + (25 if streakAtCompletion ≥ 30) points,
all bonuses additive; the "7-Day Streak" badge is present afterwards exactly
when it already was or streakAtCompletion = 7, likewise "30-Day Streak" for
30; no other badge name appears or disappears; names stay duplicate-free; and
re-awarding a badge of an existing name is a no-op. -/
theorem awardPoints_spec (c : CompletionRow) (g : GamificationState) :
    (awardPoints c g).1.points =
      g.points + (10 + (if 4 ≤ c.effortLevel.getD 0 then 5 else 0)
        + (if 4 ≤ c.satisfactionLevel.getD 0 then 5 else 0)
        + (if 7 ≤ c.streakAtCompletion then 10 else 0)
        + (if 30 ≤ c.streakAtCompletion then 25 else 0)) ∧
    ("7-Day Streak" ∈ (awardPoints c g).1.badges.map Badge.name ↔
      "7-Day Streak" ∈ g.badges.map Badge.name ∨ c.streakAtCompletion = 7) ∧
    ("30-Day Streak" ∈ (awardPoints c g).1.badges.map Badge.name ↔
      "30-Day Streak" ∈ g.badges.map Badge.name ∨ c.streakAtCompletion = 30) ∧
    (∀ n, n ≠ "7-Day Streak" → n ≠ "30-Day Streak" →
      (n ∈ (awardPoints c g).1.badges.map Badge.name ↔
        n ∈ g.badges.map Badge.name)) ∧
    ((g.badges.map Badge.name).Nodup →
      ((awardPoints c g).1.badges.map Badge.name).Nodup) ∧
    (∀ b, addBadge (addBadge g b) b = addBadge g b) := by
  refine ⟨?_, ?_, ?_, ?_, ?_, fun b => addBadge_idem g b⟩
  · by_cases h7 : c.streakAtCompletion = 7
    · simp only [awardPoints, if_pos h7, addBadge_points, addPoints_points]
      split_ifs <;> omega
    · by_cases h30 : c.streakAtCompletion = 30
      · simp only [awardPoints, if_neg h7, if_pos h30, addBadge_points,
          addPoints_points]
        split_ifs <;> omega
      · simp only [awardPoints, if_neg h7, if_neg h30, addPoints_points]
        split_ifs <;> omega
  · by_cases h7 : c.streakAtCompletion = 7
    · simp only [awardPoints, if_pos h7]
      rw [addBadge_name_mem, addPoints_badges]
      simp [h7]
    · by_cases h30 : c.streakAtCompletion = 30
      · simp only [awardPoints, if_neg h7, if_pos h30]
        rw [addBadge_name_mem, addPoints_badges]
        simp [h7]
      · simp only [awardPoints, if_neg h7, if_neg h30]
        rw [addPoints_badges]
        simp [h7]
  · by_cases h7 : c.streakAtCompletion = 7
    · simp only [awardPoints, if_pos h7]
      rw [addBadge_name_mem, addPoints_badges]
      have h30 : c.streakAtCompletion ≠ 30 := by omega
      simp [h30]
    · by_cases h30 : c.streakAtCompletion = 30
      · simp only [awardPoints, if_neg h7, if_pos h30]
        rw [addBadge_name_mem, addPoints_badges]
        simp [h30]
      · simp only [awardPoints, if_neg h7, if_neg h30]
        rw [addPoints_badges]
        simp [h30]
  · intro n h7n h30n
    by_cases h7 : c.streakAtCompletion = 7
    · simp only [awardPoints, if_pos h7]
      rw [addBadge_name_mem, addPoints_badges]
      simp [h7n]
    · by_cases h30 : c.streakAtCompletion = 30
      · simp only [awardPoints, if_neg h7, if_pos h30]
        rw [addBadge_name_mem, addPoints_badges]
        simp [h30n]
      · simp only [awardPoints, if_neg h7, if_neg h30]
        rw [addPoints_badges]
  · intro hg
    have hnames :
        ∀ q : Nat, ((addPoints g q).1.badges.map Badge.name).Nodup := by
      intro q
      rw [addPoints_badges]
      exact hg
    by_cases h7 : c.streakAtCompletion = 7
    · simp only [awardPoints, if_pos h7]
      exact addBadge_nodup _ _ (hnames _)
    · by_cases h30 : c.streakAtCompletion = 30
      · simp only [awardPoints, if_neg h7, if_pos h30]
        exact addBadge_nodup _ _ (hnames _)
      · simp only [awardPoints, if_neg h7, if_neg h30]
        exact hnames _

/-- C5 (witness): `awardPoints_spec` on a completion with
streakAtCompletion = 7 and no quality bonuses, applied to the empty
gamification state: 20 points and the "7-Day Streak" badge. -/
theorem awardPoints_spec_witness :
    (awardPoints ⟨0, 1, 1, none, none, none, none, 7⟩ exampleUser).1.points =
      exampleUser.points + (10 + 0 + 0 + 10 + 0) ∧
    ("7-Day Streak" ∈
      (awardPoints ⟨0, 1, 1, none, none, none, none, 7⟩
        exampleUser).1.badges.map Badge.name ↔
      "7-Day Streak" ∈ exampleUser.badges.map Badge.name ∨ (7 : Nat) = 7) := by
  constructor
  · have := (awardPoints_spec ⟨0, 1, 1, none, none, none, none, 7⟩
      exampleUser).1
    simpa using this
  · exact (awardPoints_spec ⟨0, 1, 1, none, none, none, none, 7⟩
      exampleUser).2.1

/-! ### Ledger helper lemmas -/

theorem find?_pred_of_eq_some {l : List CompletionRow} {d : Int}
    {r : CompletionRow}
    (hfind : l.find? (fun c => c.completionDate = d) = some r) :
    r.completionDate = d := by
  have := List.find?_some hfind
  simpa using this

theorem find?_replaceRow {l : List CompletionRow} {d : Int}
    {r r' : CompletionRow}
    (hfind : l.find? (fun c => c.completionDate = d) = some r)
    (hd : r'.completionDate = d) :
    (replaceRow r' l).find? (fun c => c.completionDate = d) = some r' := by
  induction l with
  | nil => simp at hfind
  | cons x xs ih =>
    by_cases hx : x.completionDate = d
    · rw [show replaceRow r' (x :: xs) = r' :: xs by
        simp only [replaceRow, if_pos (show x.completionDate = r'.completionDate by rw [hd, hx])]]
      exact List.find?_cons_of_pos _ (by simp [hd])
    · rw [List.find?_cons_of_neg _ (by simp [hx])] at hfind
      rw [show replaceRow r' (x :: xs) = x :: replaceRow r' xs by
        simp only [replaceRow,
          if_neg (show ¬x.completionDate = r'.completionDate by rw [hd]; exact hx)]]
      rw [List.find?_cons_of_neg _ (by simp [hx])]
      exact ih hfind

theorem replaceRow_eq_self {l : List CompletionRow} {r : CompletionRow}
    (hfind : l.find? (fun c => c.completionDate = r.completionDate) = some r) :
    replaceRow r l = l := by
  induction l with
  | nil => rfl
  | cons x xs ih =>
    by_cases hx : x.completionDate = r.completionDate
    · rw [List.find?_cons_of_pos _ (by simp [hx]), Option.some.injEq] at hfind
      subst hfind
      simp [replaceRow]
    · rw [List.find?_cons_of_neg _ (by simp [hx])] at hfind
      simp only [replaceRow, if_neg hx, ih hfind]

theorem replaceRow_map_completionDate (r : CompletionRow)
    (l : List CompletionRow) :
    (replaceRow r l).map (·.completionDate) = l.map (·.completionDate) := by
  induction l with
  | nil => rfl
  | cons x xs ih =>
    by_cases hx : x.completionDate = r.completionDate
    · simp only [replaceRow, if_pos hx]
      simp [hx]
    · simp only [replaceRow, if_neg hx]
      simp [ih]

theorem countP_date_eq_zero {l : List CompletionRow} {d : Int}
    (hfind : l.find? (fun c => c.completionDate = d) = none) :
    l.countP (fun c => c.completionDate = d) = 0 := by
  rw [List.find?_eq_none] at hfind
  rw [List.countP_eq_zero]
  exact hfind

theorem countP_date_eq_one {l : List CompletionRow} {d : Int}
    {r : CompletionRow}
    (hnodup : (l.map (·.completionDate)).Nodup)
    (hfind : l.find? (fun c => c.completionDate = d) = some r) :
    l.countP (fun c => c.completionDate = d) = 1 := by
  have hmem : r ∈ l := List.mem_of_find?_eq_some hfind
  have hrd : r.completionDate = d := find?_pred_of_eq_some hfind
  have hdm : d ∈ l.map (·.completionDate) := by
    rw [← hrd]
    exact List.mem_map_of_mem _ hmem
  have hcount := List.count_eq_one_of_mem hnodup hdm
  rw [List.count, List.countP_map] at hcount
  rw [← hcount]
  apply List.countP_congr
  intro c _
  simp [Function.comp_apply, beq_iff_eq]

/-- C10: a second `recordCompletion` for a (habit, day) that already has a
ledger row and whose body omits `count` overwrites the stored count with
`Math.min(1, targetCount) = 1` (the destructuring default), replacing any
previously recorded higher count. -/
theorem recordCompletion_count_default (s : EngineState) (today : Int)
    (p : CompleteParams) (r : CompletionRow)
    (hfind : s.ledger.find? (fun c => c.completionDate = today) = some r)
    (hcount : p.count = none) (htarget : 1 ≤ s.habit.targetCount) :
    (recordCompletion s today p).2.count = 1 ∧
    (recordCompletion s today p).2.count = min 1 s.habit.targetCount ∧
    (recordCompletion s today p).1.ledger.find?
        (fun c => c.completionDate = today) =
      some (recordCompletion s today p).2 := by
  have hone : min (1 : Nat) s.habit.targetCount = 1 := by omega
  refine ⟨?_, ?_, ?_⟩
  · simp only [recordCompletion, updateRowFields, hfind, hcount,
      Option.getD_none]
    exact hone
  · simp only [recordCompletion, updateRowFields, hfind, hcount,
      Option.getD_none]
  · simp only [recordCompletion, hfind]
    exact find?_replaceRow hfind
      (show r.completionDate = today from find?_pred_of_eq_some hfind)

theorem orFalsyStr_self (a : Option String) : orFalsyStr a a = a := by
  cases a with
  | none => rfl
  | some s =>
    simp only [orFalsyStr]
    split <;> rfl

theorem orFalsyStr_idem (a b : Option String) :
    orFalsyStr a (orFalsyStr a b) = orFalsyStr a b := by
  cases a with
  | none => rfl
  | some s =>
    simp only [orFalsyStr]
    split <;> simp_all [orFalsyStr]

theorem orFalsyNum_self (a : Option Nat) : orFalsyNum a a = a := by
  cases a with
  | none => rfl
  | some n =>
    simp only [orFalsyNum]
    split <;> rfl

theorem orFalsyNum_idem (a b : Option Nat) :
    orFalsyNum a (orFalsyNum a b) = orFalsyNum a b := by
  cases a with
  | none => rfl
  | some n =>
    simp only [orFalsyNum]
    split <;> simp_all [orFalsyNum]

theorem orFalsyMood_self (a : Option Mood) : orFalsyMood a a = a := by
  cases a <;> rfl

theorem orFalsyMood_idem (a b : Option Mood) :
    orFalsyMood a (orFalsyMood a b) = orFalsyMood a b := by
  cases a <;> rfl

/-- C2: calling `recordCompletion` a second time in the same day with
identical arguments yields exactly the state of the first call (so exactly
one ledger row for the day, no second `totalCompletions` increment and no
further gamification points), provided the ledger satisfies the unique-index
invariant of one row per (habit, completionDate). -/
theorem updateRowFields_idem (p : CompleteParams) (t : Nat)
    (x : CompletionRow) :
    updateRowFields p t (updateRowFields p t x) = updateRowFields p t x := by
  simp only [updateRowFields, orFalsyStr_idem, orFalsyNum_idem,
    orFalsyMood_idem]

theorem updateRowFields_fix_raw (p : CompleteParams) (t : Nat) (d : Int)
    (tc st : Nat) :
    updateRowFields p t
      ⟨d, min (p.count.getD 1) t, tc, p.notes, p.effortLevel,
        p.satisfactionLevel, p.moodAtTime, st⟩ =
      ⟨d, min (p.count.getD 1) t, tc, p.notes, p.effortLevel,
        p.satisfactionLevel, p.moodAtTime, st⟩ := by
  simp only [updateRowFields, orFalsyStr_self, orFalsyNum_self,
    orFalsyMood_self]

theorem recordCompletion_fixpoint (today : Int) (p : CompleteParams)
    (s1 : EngineState) (row1 : CompletionRow)
    (hrow : s1.ledger.find? (fun c => c.completionDate = today) = some row1)
    (hfix : updateRowFields p s1.habit.targetCount row1 = row1)
    (hdate : row1.completionDate = today) :
    recordCompletion s1 today p = (s1, row1) := by
  simp only [recordCompletion, hrow, hfix]
  rw [replaceRow_eq_self (by rw [hdate]; exact hrow)]

theorem recordCompletion_idem (s : EngineState) (today : Int)
    (p : CompleteParams)
    (hnodup : (s.ledger.map (·.completionDate)).Nodup) :
    (recordCompletion (recordCompletion s today p).1 today p).1 =
      (recordCompletion s today p).1 ∧
    ((recordCompletion (recordCompletion s today p).1 today p).1.ledger.countP
      (fun c => c.completionDate = today)) = 1 ∧
    (recordCompletion (recordCompletion s today p).1 today p).1.habit.totalCompletions =
      (recordCompletion s today p).1.habit.totalCompletions ∧
    (recordCompletion (recordCompletion s today p).1 today p).1.user.points =
      (recordCompletion s today p).1.user.points := by
  rcases hfind : s.ledger.find? (fun c => c.completionDate = today) with _ | r
  · -- the first call takes the create path and appends a row dated today
    have h2 : (recordCompletion s today p).2 =
        ⟨today, min (p.count.getD 1) s.habit.targetCount,
          s.habit.targetCount, p.notes, p.effortLevel, p.satisfactionLevel,
          p.moodAtTime,
          calculateStreak s.habit (sortedDatesDesc s.ledger) today + 1⟩ := by
      simp only [recordCompletion, hfind]
    have h1 : (recordCompletion s today p).1.habit.targetCount =
        s.habit.targetCount := by
      simp only [recordCompletion, hfind, recordHabitUpdate,
        applyCalculateStreak]
    have hledger : (recordCompletion s today p).1.ledger =
        s.ledger ++ [(recordCompletion s today p).2] := by
      simp only [recordCompletion, hfind]
    have hdate : (recordCompletion s today p).2.completionDate = today := by
      rw [h2]
    have hrow : (recordCompletion s today p).1.ledger.find?
        (fun c => c.completionDate = today) =
        some (recordCompletion s today p).2 := by
      rw [hledger, List.find?_append, hfind]
      simp [hdate]
    have hfix : updateRowFields p
        (recordCompletion s today p).1.habit.targetCount
        (recordCompletion s today p).2 = (recordCompletion s today p).2 := by
      rw [h1, h2]
      exact updateRowFields_fix_raw p s.habit.targetCount today
        s.habit.targetCount _
    have heq := recordCompletion_fixpoint today p _ _ hrow hfix hdate
    refine ⟨by rw [heq], ?_, by rw [heq], by rw [heq]⟩
    rw [heq]
    rw [hledger, List.countP_append, countP_date_eq_zero hfind]
    simp [hdate]
  · -- the first call takes the update path
    have hrd : r.completionDate = today := find?_pred_of_eq_some hfind
    have h2 : (recordCompletion s today p).2 =
        updateRowFields p s.habit.targetCount r := by
      simp only [recordCompletion, hfind]
    have h1 : (recordCompletion s today p).1.habit.targetCount =
        s.habit.targetCount := by
      simp only [recordCompletion, hfind]
    have hledger : (recordCompletion s today p).1.ledger =
        replaceRow (updateRowFields p s.habit.targetCount r) s.ledger := by
      simp only [recordCompletion, hfind]
    have hdate : (recordCompletion s today p).2.completionDate = today := by
      rw [h2]
      simpa [updateRowFields] using hrd
    have hrow : (recordCompletion s today p).1.ledger.find?
        (fun c => c.completionDate = today) =
        some (recordCompletion s today p).2 := by
      rw [hledger, h2]
      exact find?_replaceRow hfind (by simpa [updateRowFields] using hrd)
    have hfix : updateRowFields p
        (recordCompletion s today p).1.habit.targetCount
        (recordCompletion s today p).2 = (recordCompletion s today p).2 := by
      rw [h1, h2]
      exact updateRowFields_idem p s.habit.targetCount r
    have heq := recordCompletion_fixpoint today p _ _ hrow hfix hdate
    refine ⟨by rw [heq], ?_, by rw [heq], by rw [heq]⟩
    rw [heq]
    have hnodup1 : ((recordCompletion s today p).1.ledger.map
        (·.completionDate)).Nodup := by
      rw [hledger, replaceRow_map_completionDate]
      exact hnodup
    exact countP_date_eq_one hnodup1 hrow

/-- C2 (witness): `recordCompletion_idem` at the one-row state for day 0,
discharging the unique-index hypothesis by evaluation. -/
theorem recordCompletion_idem_witness :
    (exampleStateFullRow.ledger.map (·.completionDate)).Nodup ∧
    (recordCompletion (recordCompletion exampleStateFullRow 0 emptyParams).1
        0 emptyParams).1 =
      (recordCompletion exampleStateFullRow 0 emptyParams).1 :=
  ⟨by decide,
    (recordCompletion_idem exampleStateFullRow 0 emptyParams (by decide)).1⟩

/-- C10 (witness): `recordCompletion_count_default` at a state whose stored
row for day 0 carries count 5; after the call the stored count is 1. -/
theorem recordCompletion_count_default_witness :
    exampleStateFullRow.ledger.find? (fun c => c.completionDate = 0) =
      some ⟨0, 5, 8, none, none, none, none, 1⟩ ∧
    (recordCompletion exampleStateFullRow 0 emptyParams).2.count = 1 := by
  constructor
  · decide
  · exact (recordCompletion_count_default exampleStateFullRow 0 emptyParams
      ⟨0, 5, 8, none, none, none, none, 1⟩ (by decide) rfl (by decide)).1

theorem countP_date_le_one {l : List CompletionRow} {d : Int}
    (hnodup : (l.map (·.completionDate)).Nodup) :
    l.countP (fun c => c.completionDate = d) ≤ 1 := by
  have hcount := List.nodup_iff_count_le_one.mp hnodup d
  rw [List.count, List.countP_map] at hcount
  calc l.countP (fun c => c.completionDate = d)
      = l.countP ((fun x => x == d) ∘ fun c => c.completionDate) := by
        apply List.countP_congr
        intro c _
        simp [Function.comp_apply, beq_iff_eq]
    _ ≤ 1 := hcount

theorem eraseP_eq_filter_of_countP_le_one {l : List CompletionRow}
    {p : CompletionRow → Bool} (hle : l.countP p ≤ 1) :
    l.eraseP p = l.filter (fun a => !p a) := by
  induction l with
  | nil => rfl
  | cons x xs ih =>
    by_cases hx : p x = true
    · rw [List.eraseP_cons_of_pos hx, List.filter_cons_of_neg (by simp [hx])]
      rw [List.countP_cons_of_pos _ _ hx] at hle
      have hzero : xs.countP p = 0 := by omega
      rw [List.countP_eq_zero] at hzero
      rw [List.filter_eq_self.mpr]
      intro a ha
      simp [hzero a ha]
    · rw [List.eraseP_cons_of_neg (by simp [hx]),
        List.filter_cons_of_pos (by simp [hx])]
      rw [List.countP_cons_of_neg _ _ (by simp [hx])] at hle
      rw [ih hle]

/-- C3: `undoCompletion` for `today` fails with the 404 AppError when no
ledger row for (habit, today) exists; otherwise it deletes exactly that row
(under the unique-index invariant the post-state ledger is the original with
the rows dated today removed, and there was exactly one), decrements
`totalCompletions` with a floor at 0, and recomputes `currentStreak` from
scratch through the Streak Calculator on the post-delete ledger. -/
theorem undoCompletion_spec (s : EngineState) (today : Int) :
    (s.ledger.find? (fun c => c.completionDate = today) = none →
      undoCompletion s today =
        .error ⟨"No completion found for today", 404, "AUTHZ_002"⟩) ∧
    ((s.ledger.map (·.completionDate)).Nodup →
      ∀ r, s.ledger.find? (fun c => c.completionDate = today) = some r →
      ∃ s2, undoCompletion s today = .ok s2 ∧
        s2.ledger = s.ledger.filter (fun c => !(c.completionDate = today)) ∧
        s.ledger.countP (fun c => c.completionDate = today) = 1 ∧
        s2.habit.totalCompletions = s.habit.totalCompletions - 1 ∧
        (s.habit.totalCompletions = 0 → s2.habit.totalCompletions = 0) ∧
        s2.habit.currentStreak =
          calculateStreak s.habit (sortedDatesDesc s2.ledger) today) := by
  constructor
  · intro hfind
    simp only [undoCompletion, hfind]
  · intro hnodup r hfind
    have herase : s.ledger.eraseP (fun c => c.completionDate = today) =
        s.ledger.filter (fun c => !(c.completionDate = today)) :=
      eraseP_eq_filter_of_countP_le_one (countP_date_le_one hnodup)
    have hun : undoCompletion s today =
        .ok ⟨undoHabitUpdate s.habit
              (sortedDatesDesc
                (s.ledger.eraseP (fun c => c.completionDate = today))) today,
            s.ledger.eraseP (fun c => c.completionDate = today), s.user⟩ := by
      simp only [undoCompletion, hfind]
    refine ⟨_, hun, ?_, ?_, ?_, ?_, ?_⟩
    · exact herase
    · exact countP_date_eq_one hnodup hfind
    · simp [undoHabitUpdate, applyCalculateStreak]
    · intro h0
      simp [undoHabitUpdate, applyCalculateStreak, h0]
    · simp only [undoHabitUpdate, applyCalculateStreak, herase]
      apply calculateStreak_congr <;> rfl

/-- C3 (witness): `undoCompletion_spec` at the one-row state for day 0. -/
theorem undoCompletion_spec_witness :
    (exampleStateOneRow.ledger.map (·.completionDate)).Nodup ∧
    ∃ s2, undoCompletion exampleStateOneRow 0 = .ok s2 ∧
      s2.ledger =
        exampleStateOneRow.ledger.filter (fun c => !(c.completionDate = 0)) := by
  refine ⟨by decide, ?_⟩
  obtain ⟨s2, h1, h2, _⟩ := (undoCompletion_spec exampleStateOneRow 0).2
    (by decide) ⟨0, 1, 8, none, none, none, none, 1⟩ (by decide)
  exact ⟨s2, h1, h2⟩

theorem calculateStreak_mk_progress (h : Habit) (cur lng tot : Nat)
    (l : List Int) (t : Int) :
    calculateStreak
      ⟨h.title, h.description, h.category, h.icon, h.color, h.frequency,
        h.customDays, h.timesPerWeek, h.targetCount, h.unit, cur, lng, tot,
        h.reminders, h.moodBooster, h.recommendedMoods, h.isActive,
        h.isArchived⟩ l t = calculateStreak h l t := by
  apply calculateStreak_congr <;> rfl

theorem recordHabitUpdate_roundtrip (h : Habit) (D : List Int) (t : Int) :
    recordHabitUpdate (undoHabitUpdate (recordHabitUpdate h D t) D t) D t =
      recordHabitUpdate h D t := by
  simp only [recordHabitUpdate, undoHabitUpdate, applyCalculateStreak,
    calculateStreak_mk_progress, Habit.mk.injEq, and_true, true_and]
  constructor
  · split_ifs <;> omega
  · omega

/-- C4: after a first-of-the-day `recordCompletion`, undoing today's
completion succeeds, and repeating `recordCompletion` with the original
arguments restores the habit document (count target, `currentStreak`,
`longestStreak`, `totalCompletions`, all fields) and the ledger (hence the
stored row and its count) exactly to their values after the first call. -/
theorem record_undo_redo_roundtrip (s : EngineState) (today : Int)
    (p : CompleteParams)
    (hfind : s.ledger.find? (fun c => c.completionDate = today) = none) :
    ∃ su, undoCompletion (recordCompletion s today p).1 today = .ok su ∧
      (recordCompletion su today p).1.habit =
        (recordCompletion s today p).1.habit ∧
      (recordCompletion su today p).1.ledger =
        (recordCompletion s today p).1.ledger := by
  have h2 : (recordCompletion s today p).2 =
      ⟨today, min (p.count.getD 1) s.habit.targetCount,
        s.habit.targetCount, p.notes, p.effortLevel, p.satisfactionLevel,
        p.moodAtTime,
        calculateStreak s.habit (sortedDatesDesc s.ledger) today + 1⟩ := by
    simp only [recordCompletion, hfind]
  have hdate : (recordCompletion s today p).2.completionDate = today := by
    rw [h2]
  have hledger1 : (recordCompletion s today p).1.ledger =
      s.ledger ++ [(recordCompletion s today p).2] := by
    simp only [recordCompletion, hfind]
  have hhabit1 : (recordCompletion s today p).1.habit =
      recordHabitUpdate s.habit (sortedDatesDesc s.ledger) today := by
    simp only [recordCompletion, hfind]
  have hrow : (recordCompletion s today p).1.ledger.find?
      (fun c => c.completionDate = today) =
      some (recordCompletion s today p).2 := by
    rw [hledger1, List.find?_append, hfind]
    simp [hdate]
  have herase : (recordCompletion s today p).1.ledger.eraseP
      (fun c => c.completionDate = today) = s.ledger := by
    rw [hledger1, List.eraseP_append_right _ (by
      intro a ha
      have := List.find?_eq_none.mp hfind a ha
      simpa using this)]
    rw [List.eraseP_cons_of_pos (by simp [hdate])]
    simp
  have hun : undoCompletion (recordCompletion s today p).1 today =
      .ok ⟨undoHabitUpdate (recordCompletion s today p).1.habit
            (sortedDatesDesc s.ledger) today,
          s.ledger, (recordCompletion s today p).1.user⟩ := by
    simp only [undoCompletion, hrow, herase]
  refine ⟨_, hun, ?_, ?_⟩
  · simp only [recordCompletion, hfind, hhabit1]
    exact recordHabitUpdate_roundtrip s.habit (sortedDatesDesc s.ledger) today
  · simp only [recordCompletion, hfind, hhabit1, undoHabitUpdate,
      recordHabitUpdate, applyCalculateStreak, calculateStreak_mk_progress]

/-- C4 (witness): `record_undo_redo_roundtrip` at the empty-ledger state for
day 0. -/
theorem record_undo_redo_roundtrip_witness :
    (⟨exampleDaily, [], exampleUser⟩ :
        EngineState).ledger.find? (fun c => c.completionDate = 0) = none ∧
    ∃ su, undoCompletion
        (recordCompletion ⟨exampleDaily, [], exampleUser⟩ 0 emptyParams).1 0 =
        .ok su ∧
      (recordCompletion su 0 emptyParams).1.habit =
        (recordCompletion ⟨exampleDaily, [], exampleUser⟩ 0
          emptyParams).1.habit :=
  ⟨by decide, by
    obtain ⟨su, h1, h2, _⟩ :=
      record_undo_redo_roundtrip ⟨exampleDaily, [], exampleUser⟩ 0 emptyParams
        (by decide)
    exact ⟨su, h1, h2⟩⟩

/-- C6 (counterexample): the calendar route's `completedHabits` counts every
completion row of the user on the day, not the due habits completed that day.
On Tuesday epoch day 12, with an active daily habit (id 1, no completion) and
an active Monday-only habit (id 2) that has a completion row dated that
Tuesday, the route reports completionRate 100 while the claim's rule yields
0 (one due habit, zero due habits completed). -/
theorem calendar_rate_cex :
    (calendarDayData [(1, exampleDaily), (2, exampleMonday)]
      [⟨2, 12⟩] 12).completionRate = 100 ∧
    specCompletionRate [(1, exampleDaily), (2, exampleMonday)]
      [⟨2, 12⟩] 12 = 0 := by
  decide

/-- C6 (amended): for every day of the inclusive range the calendar reports
an entry whose `totalHabits` counts the active habits due that day, whose
`completedHabits` counts all of the user's completion rows dated that day
(rows of habits that are inactive or not due that day included), and whose
completionRate is round(completedHabits/totalHabits × 100), with 0 and no
division when no habit is due. -/
theorem calendarRange_spec (habits : List (Nat × Habit))
    (completions : List UserCompletion) (startDate endDate day : Int)
    (hlo : startDate ≤ day) (hhi : day ≤ endDate) :
    (day, calendarDayData habits completions day) ∈
      calendarRange habits completions startDate endDate ∧
    ∀ entry,
      (day, entry) ∈ calendarRange habits completions startDate endDate →
      entry.totalHabits =
        habits.countP (fun hb => hb.2.isActive && isDueToday hb.2 day) ∧
      entry.completedHabits =
        completions.countP (fun c => c.completionDate = day) ∧
      entry.completionRate =
        (if habits.countP (fun hb => hb.2.isActive && isDueToday hb.2 day) = 0
         then 0
         else
           roundRate (completions.countP (fun c => c.completionDate = day))
             (habits.countP
               (fun hb => hb.2.isActive && isDueToday hb.2 day))) := by
  have hmem : day ∈ rangeDays startDate endDate := by
    have hday : day = startDate + ((day - startDate).toNat : Int) := by omega
    rw [hday, rangeDays]
    exact List.mem_map_of_mem _ (List.mem_range.mpr
      (show (day - startDate).toNat < (endDate + 1 - startDate).toNat by
        omega))
  have htotal : (calendarDayData habits completions day).totalHabits =
      habits.countP (fun hb => hb.2.isActive && isDueToday hb.2 day) := by
    simp only [calendarDayData]
    rw [← List.countP_eq_length_filter, List.countP_filter]
    apply List.countP_congr
    intro hb _
    simp [Bool.and_comm]
  have hcompleted : (calendarDayData habits completions day).completedHabits =
      completions.countP (fun c => c.completionDate = day) := by
    simp only [calendarDayData]
    rw [← List.countP_eq_length_filter]
  constructor
  · simp only [calendarRange, List.mem_map]
    exact ⟨day, hmem, rfl⟩
  · intro entry hentry
    have hentry' : entry = calendarDayData habits completions day := by
      simp only [calendarRange, List.mem_map, Prod.mk.injEq] at hentry
      obtain ⟨d, _, hd, he⟩ := hentry
      rw [← he, hd]
    subst hentry'
    refine ⟨htotal, hcompleted, ?_⟩
    by_cases hzero :
        habits.countP (fun hb => hb.2.isActive && isDueToday hb.2 day) = 0
    · simp only [calendarDayData, if_pos hzero]
      have : (calendarDayData habits completions day).totalHabits = 0 := by
        rw [htotal, hzero]
      simp only [calendarDayData] at this
      rw [if_neg (by omega)]
    · simp only [calendarDayData, if_neg hzero]
      have htpos : 0 <
          ((habits.filter (fun hb => hb.2.isActive)).filter
            (fun hb => isDueToday hb.2 day)).length := by
        have : (calendarDayData habits completions day).totalHabits ≠ 0 := by
          rw [htotal]
          exact hzero
        simp only [calendarDayData] at this
        omega
      rw [if_pos htpos]
      have h1 := htotal
      have h2 := hcompleted
      simp only [calendarDayData] at h1 h2
      rw [h1, h2]

/-- C6 (witness): `calendarRange_spec` for the two-habit fixture over the
range day 10 to day 14, at day 12. -/
theorem calendarRange_spec_witness :
    ((10 : Int) ≤ 12 ∧ (12 : Int) ≤ 14) ∧
    (12, calendarDayData [(1, exampleDaily), (2, exampleMonday)]
        [⟨2, 12⟩] 12) ∈
      calendarRange [(1, exampleDaily), (2, exampleMonday)] [⟨2, 12⟩] 10 14 :=
  ⟨⟨by decide, by decide⟩,
    (calendarRange_spec [(1, exampleDaily), (2, exampleMonday)] [⟨2, 12⟩]
      10 14 12 (by decide) (by decide)).1⟩

/-- C7 (code evaluated at the failing input): a buffer holding two
completions for the same habit on the two distinct days 10 and 11, replayed
with every request succeeding on day 12, produces a single ledger row dated
12 — the replay day — because `syncOfflineData` posts only the payload fields
and the server re-derives "today" from its own clock (auth.js 714); the
buffered dates are never transmitted. The buffer itself is emptied. The
claim's required outcome — two distinct ledger rows, one per buffered date —
does not occur. -/
theorem syncOfflineData_collapses_dates :
    ((syncOfflineData ⟨exampleDaily, [], exampleUser⟩ 12
        [⟨1, 10, ⟨some 1, none, none, none, none⟩, 100⟩,
         ⟨1, 11, ⟨some 1, none, none, none, none⟩, 200⟩]
        (fun _ => true)).1.ledger.map (·.completionDate)) = [12] ∧
    (syncOfflineData ⟨exampleDaily, [], exampleUser⟩ 12
        [⟨1, 10, ⟨some 1, none, none, none, none⟩, 100⟩,
         ⟨1, 11, ⟨some 1, none, none, none, none⟩, 200⟩]
        (fun _ => true)).2 = [] := by
  decide

theorem getLastD_append_right (pre : List Int) {l : List Int} (hne : l ≠ [])
    (d : Int) : (pre ++ l).getLastD d = l.getLastD d := by
  simp only [List.getLastD_eq_getLast?]
  rw [List.getLast?_append_of_ne_nil pre hne]

theorem getLastD_mem {l : List Int} (hne : l ≠ []) (d : Int) :
    l.getLastD d ∈ l := by
  simp only [List.getLastD_eq_getLast?]
  rcases hlast : l.getLast? with _ | b
  · rw [List.getLast?_eq_none_iff] at hlast
    exact absurd hlast hne
  · simpa using List.mem_of_mem_getLast? hlast

/-- The walk of the code loop and the walk of the spec agree step by step:
`l` is the not-yet-consumed suffix of the full sorted history `pre ++ l`
(`pre` holds the already consumed dates, all later than the current day), and
both walks receive the same iteration budget. The invariant carries: every
pending completion is at most the current day, so the loop's redundant
`c < checkDate` guard never fires, and a completion falling on a day that is
not due is consumed by the loop with the same streak value that the spec walk
produces by ignoring it. -/
theorem streakLoop_eq_specWalk (h : Habit) :
    ∀ (fuel : Nat) (pre l : List Int) (day : Int) (s : Nat),
      pre ++ l ≠ [] →
      (pre ++ l).Pairwise (· > ·) →
      (∀ x ∈ l, x ≤ day) →
      (∀ x ∈ pre, day < x) →
      streakLoop h fuel l day s =
        specWalk h (pre ++ l) ((pre ++ l).getLastD 0) fuel day s := by
  intro fuel
  induction fuel with
  | zero =>
    intro pre l day s _ _ _ _
    cases l <;> rfl
  | succ fuel ih =>
    intro pre l day s hne hsort hl hpre
    cases l with
    | nil =>
      -- the loop is done; the spec walk sees a day below the oldest date
      have hmem : (pre ++ ([] : List Int)).getLastD 0 ∈ pre := by
        have := getLastD_mem hne 0
        simpa using this
      have hstop : day < (pre ++ ([] : List Int)).getLastD 0 := hpre _ hmem
      simp only [streakLoop, specWalk, if_pos hstop]
    | cons c rest =>
      have hcl : c ∈ pre ++ c :: rest := by simp
      have hstop_mem : (pre ++ c :: rest).getLastD 0 ∈ c :: rest := by
        rw [getLastD_append_right pre (by simp) 0]
        exact getLastD_mem (by simp) 0
      have hstople : (pre ++ c :: rest).getLastD 0 ≤ day :=
        hl _ hstop_mem
      have hnotlt : ¬day < (pre ++ c :: rest).getLastD 0 := by omega
      have hsublist : (c :: rest).Pairwise (· > ·) :=
        hsort.sublist (List.sublist_append_right pre (c :: rest))
      have hrestlt : ∀ x ∈ rest, x < c := by
        intro x hx
        exact List.rel_of_pairwise_cons hsublist hx
      by_cases hc : c = day
      · -- the pending completion falls on the walk day: consume it
        subst hc
        have hcontains : (pre ++ c :: rest).contains c = true :=
          List.elem_eq_true_of_mem hcl
        have happ : pre ++ c :: rest = (pre ++ [c]) ++ rest :=
          List.append_cons pre c rest
        have ihx : ∀ s' : Nat, streakLoop h fuel rest (c - 1) s' =
            specWalk h (pre ++ c :: rest) ((pre ++ c :: rest).getLastD 0)
              fuel (c - 1) s' := by
          intro s'
          rw [happ]
          apply ih (pre ++ [c]) rest (c - 1) s'
          · simp
          · rw [← happ]
            exact hsort
          · intro x hx
            have := hrestlt x hx
            omega
          · intro x hx
            rcases List.mem_append.mp hx with hx | hx
            · have := hpre x hx
              omega
            · simp only [List.mem_singleton] at hx
              omega
        by_cases hdue : isDueToday h c = true
        · simp only [streakLoop, specWalk, if_neg hnotlt, hdue, hcontains,
            if_true, eq_self_iff_true]
          exact ihx (s + 1)
        · have hdue' : isDueToday h c = false := by
            simpa using hdue
          simp only [streakLoop, specWalk, if_neg hnotlt, hdue',
            Bool.false_eq_true, if_false, eq_self_iff_true, if_true]
          exact ihx s
      · -- the pending completion is strictly older than the walk day
        have hclt : c < day := by
          have := hl c (by simp)
          omega
        have hnomem : day ∉ pre ++ c :: rest := by
          intro hmem
          rcases List.mem_append.mp hmem with hx | hx
          · have := hpre day hx
            omega
          · rcases List.mem_cons.mp hx with rfl | hx
            · exact hc rfl
            · have := hrestlt day hx
              omega
        have hcontains : (pre ++ c :: rest).contains day = false := by
          have hnot : ¬(pre ++ c :: rest).contains day = true := by
            intro hcon
            exact hnomem (List.mem_of_elem_eq_true hcon)
          simpa using hnot
        by_cases hdue : isDueToday h day = true
        · simp only [streakLoop, specWalk, if_neg hnotlt, if_neg hc, hdue,
            if_true, hcontains, Bool.false_eq_true, if_false]
        · have hdue' : isDueToday h day = false := by simpa using hdue
          simp only [streakLoop, specWalk, if_neg hnotlt, if_neg hc, hdue',
            Bool.false_eq_true, if_false, if_pos hclt]
          apply ih pre (c :: rest) (day - 1) s hne hsort
          · intro x hx
            rcases List.mem_cons.mp hx with rfl | hx
            · omega
            · have := hrestlt x hx
              omega
          · intro x hx
            have := hpre x hx
            omega

/-- C1: for every habit and completion history (sorted descending with one
row per day, as the unique-indexed ledger query returns it), the streak
computed by `calculateStreak` equals the spec's reference walk `specStreak`:
0 when the most recent completion is neither today nor yesterday, and
otherwise the backward walk from that anchor in which a non-due day neither
breaks nor extends the streak, a due day with a completion increments it, and
the first due day without a completion ends it. -/
theorem calculateStreak_eq_specStreak (h : Habit) (dates : List Int)
    (today : Int) (hsorted : dates.Pairwise (· > ·)) :
    calculateStreak h dates today = specStreak h dates today := by
  cases dates with
  | nil => rfl
  | cons first rest =>
    have hle : ∀ x ∈ first :: rest, x ≤ first := by
      intro x hx
      rcases List.mem_cons.mp hx with rfl | hx
      · exact le_refl x
      · exact le_of_lt (List.rel_of_pairwise_cons hsorted hx)
    by_cases h1 : first = today
    · subst h1
      simp only [calculateStreak, specStreak, if_pos rfl,
        if_pos (Or.inl rfl)]
      have := streakLoop_eq_specWalk h
        ((first - (first :: rest).getLastD 0).toNat + 1) [] (first :: rest)
        first 0 (by simp) (by simpa using hsorted) hle (by simp)
      simpa using this
    · by_cases h2 : first = today - 1
      · simp only [calculateStreak, specStreak, if_neg h1,
          if_pos (Or.inr h2), if_pos h2]
        rw [← h2]
        have := streakLoop_eq_specWalk h
          ((first - (first :: rest).getLastD 0).toNat + 1) [] (first :: rest)
          first 0 (by simp) (by simpa using hsorted) hle (by simp)
        simpa using this
      · have hor : ¬(first = today ∨ first = today - 1) := by tauto
        simp only [calculateStreak, specStreak, if_neg h1, if_neg h2,
          if_neg hor]

/-- C1 (witness): `calculateStreak_eq_specStreak` for the Thursday-only habit
with completions on epoch days 14 (a Thursday, today), 13 (a Wednesday, not
due) and 7 (the previous Thursday); both the code and the reference walk
yield streak 2. -/
theorem calculateStreak_eq_specStreak_witness :
    ([14, 13, 7] : List Int).Pairwise (· > ·) ∧
    calculateStreak exampleThursday [14, 13, 7] 14 =
      specStreak exampleThursday [14, 13, 7] 14 ∧
    calculateStreak exampleThursday [14, 13, 7] 14 = 2 :=
  ⟨by decide,
    calculateStreak_eq_specStreak exampleThursday [14, 13, 7] 14 (by decide),
    by decide⟩

end TikTik
